import Mathlib

/-!
Verification development for the quicknlp training core.

The Python sources are shallow-embedded as Lean definitions:
tensors become nested lists (row-major, as PyTorch stores them), float scalars
become real numbers (rationals where only configuration values are involved),
and fallible tensor operations return Option.  Definitions named after source
functions are translated line by line from src/quicknlp/data/learners.py and
src/quicknlp/stepper.py; definitions whose name starts with spec are stated
from the wording of the specification for comparison against the source.
-/

/-! ## Generic tensor helpers

A rank-3 float tensor of shape [s, b, v] is a List (List (List Real)) with
outer length s, middle lengths b, inner lengths v; a rank-2 index tensor is a
List (List Nat).  Flattening a nested list in order models the row-major
element order of a contiguous PyTorch tensor.
-/

/-- Shape test for a rank-2 real tensor (a matrix). -/
def matShape (m : List (List ℝ)) (r c : ℕ) : Bool :=
  m.length == r && m.all (fun row => row.length == c)

/-- Shape test for a rank-3 real tensor. -/
def t3Shape (t : List (List (List ℝ))) (s b v : ℕ) : Bool :=
  t.length == s && t.all (fun m => matShape m b v)

/-- Shape test for a rank-2 index tensor. -/
def t2Shape (t : List (List ℕ)) (s b : ℕ) : Bool :=
  t.length == s && t.all (fun r => r.length == b)

/-- Every flattened target index is either the padding index or a valid class
index below the vocabulary size. -/
def tgtsValid (tgts : List ℕ) (pad v : ℕ) : Bool :=
  tgts.all (fun t => t == pad || decide (t < v))

/-- tensor.size() for a rank-3 tensor, reading the three dimensions off the
nesting structure (correct for well-formed, nonempty tensors). -/
def size3 (t : List (List (List ℝ))) : ℕ × ℕ × ℕ :=
  (t.length, (t.headD []).length, ((t.headD []).headD []).length)

/-- tensor.size() for a rank-2 tensor. -/
def size2 (t : List (List ℕ)) : ℕ × ℕ :=
  (t.length, (t.headD []).length)

/-- All scalars of a rank-3 tensor in row-major order. -/
def flatScalars (t : List (List (List ℝ))) : List ℝ :=
  t.flatten.flatten

/-- Split a flat list into consecutive chunks of length k (the final chunk is
shorter when k does not divide the length; callers check divisibility). -/
def chunkExact (k : ℕ) (l : List ℝ) : List (List ℝ) :=
  if h : k = 0 ∨ l.length = 0 then []
  else l.take k :: chunkExact k (l.drop k)
termination_by l.length
decreasing_by
  push_neg at h
  have hk : 0 < k := Nat.pos_of_ne_zero h.1
  simp only [List.length_drop]
  omega

/-- tensor.view(-1, v) on a (contiguous) rank-3 tensor: reinterpret the
row-major scalars as rows of length v; fails when v is zero or does not divide
the element count, as the PyTorch call does. -/
def view2 (t : List (List (List ℝ))) (v : ℕ) : Option (List (List ℝ)) :=
  if v ≠ 0 ∧ (flatScalars t).length % v = 0 then some (chunkExact v (flatScalars t))
  else none

/-- Arithmetic mean of a list of reals (tensor.mean()). -/
noncomputable def meanList (l : List ℝ) : ℝ := l.sum / (l.length : ℝ)

/-! ## Loss functions, from src/quicknlp/data/learners.py -/

/-- F.log_softmax over one logit row: x i - log (sum j, exp x j). -/
noncomputable def logSoftmax (row : List ℝ) : List ℝ :=
  row.map (fun x => x - Real.log ((row.map Real.exp).sum))

/-- Negative log-softmax of row at class t (the per-position NLL picked by
F.cross_entropy). -/
noncomputable def nllOf (row : List ℝ) (t : ℕ) : ℝ :=
  -((logSoftmax row).getD t 0)

/-- F.cross_entropy(input=rows, target=tgts, ignore_index=ignore) with the
default mean reduction: fails on a row/target count mismatch or an
out-of-range non-ignored target; otherwise averages the per-position NLL over
the non-ignored positions. -/
noncomputable def ceRows (rows : List (List ℝ)) (tgts : List ℕ) (ignore : ℕ) : Option ℝ :=
  if rows.length = tgts.length ∧ ∀ p ∈ rows.zip tgts, p.2 = ignore ∨ p.2 < p.1.length then
    some
      (let pairs := (rows.zip tgts).filter (fun p => decide (p.2 ≠ ignore))
       (pairs.map (fun p => nllOf p.1 p.2)).sum / (pairs.length : ℝ))
  else none

/-- F.cross_entropy(..., reduce=False): the per-position losses, with zero at
ignored positions. -/
noncomputable def ceRowsNoReduce (rows : List (List ℝ)) (tgts : List ℕ) (ignore : ℕ) :
    Option (List ℝ) :=
  if rows.length = tgts.length ∧ ∀ p ∈ rows.zip tgts, p.2 = ignore ∨ p.2 < p.1.length then
    some ((rows.zip tgts).map (fun p => if p.2 = ignore then 0 else nllOf p.1 p.2))
  else none

/-- F.pad(input, (0, k, 0, 0, 0, 0), value=0) on a rank-3 tensor: the six-tuple
pads the three trailing dimensions starting from the last, so (0, k, 0, 0, 0, 0)
appends k zeros on the right of the LAST dimension (the vocabulary dimension)
of every row, and leaves the batch and sequence dimensions unchanged. -/
def padLastDim (t : List (List (List ℝ))) (k : ℕ) : List (List (List ℝ)) :=
  t.map (fun m => m.map (fun r => r ++ List.replicate k (0 : ℝ)))

/-- Lines 16-18 of decoder_loss (learners.py): read the sizes and, when the
target is longer than the input, apply F.pad(input, (0, sl - sl_in, 0, 0, 0, 0),
value=0). -/
def decoderPadStep (input : List (List (List ℝ))) (target : List (List ℕ)) :
    List (List (List ℝ)) :=
  let sl_in := (size3 input).1
  let sl := (size2 target).1
  if sl > sl_in then padLastDim input (sl - sl_in) else input

/-- decoder_loss (learners.py lines 13-25): size extraction, conditional
F.pad, truncation input[:sl], optional predict-first-token truncation, then
F.cross_entropy over the flattened logits and targets. -/
noncomputable def decoder_loss (input : List (List (List ℝ))) (target : List (List ℕ))
    (pad_idx : ℕ) (predict_first_token : Bool) : Option ℝ :=
  let vocab := (size3 input).2.2
  let sl := (size2 target).1
  let input1 := decoderPadStep input target
  let input2 := input1.take sl
  let input3 := if predict_first_token then input2.take 1 else input2
  let target1 := if predict_first_token then target.take 1 else target
  (view2 input3 vocab).bind (fun rows => ceRows rows target1.flatten pad_idx)

/-- Lines 29-33 of decoder_loss_smoothed (learners.py): the whole
shape-alignment prefix of the smoothed loss.  It reads the sizes and applies
the same conditional F.pad call as decoder_loss; no other line of
decoder_loss_smoothed slices or reshapes the sequence dimension, so this is
exactly the tensor the rest of the smoothed loss computation consumes. -/
def smoothedAligned (input : List (List (List ℝ))) (target : List (List ℕ)) :
    List (List (List ℝ)) :=
  let sl_in := (size3 input).1
  let sl := (size2 target).1
  if sl > sl_in then padLastDim input (sl - sl_in) else input

/-- gaussian_kld (learners.py lines 48-52).  All four tensors have identical
shape and every operation is elementwise under one global torch.sum, so each
tensor is modelled by its row-major scalar list. -/
noncomputable def gaussian_kld (recog_mu recog_logvar prior_mu prior_logvar : List ℝ) : ℝ :=
  -0.5 *
    (((recog_mu.zip recog_logvar).zip (prior_mu.zip prior_logvar)).map
      (fun q =>
        1 + q.1.2 - q.2.2 - (q.2.1 - q.1.1) ^ 2 / Real.exp q.2.2 -
          Real.exp q.1.2 / Real.exp q.2.2)).sum

/-- The KL annealing weight of cvae_loss (learners.py line 72):
1.0 if max_kld_step is None else min((step + 1) / max_kld_step, 1). -/
noncomputable def kldWeightOf (step : ℕ) (max_kld_step : Option ℕ) : ℝ :=
  match max_kld_step with
  | none => 1
  | some m => min (((step : ℝ) + 1) / (m : ℝ)) 1

/-- The module-level STEP update performed by the logging branch of cvae_loss
(learners.py lines 74-77): if step > STEP then (reset to 0 when step == 0,
print) and increment. -/
def stepCounterNext (step STEP : ℕ) : ℕ :=
  if step > STEP then (if step = 0 then 0 else STEP) + 1 else STEP

/-- The 6-tuple a CVAE model returns.  The latent mean / log-variance tensors
are modelled by their row-major scalar lists (gaussian_kld is elementwise under
a global sum, so their shape is irrelevant). -/
structure CVAEOutput where
  predictions : List (List (List ℝ))
  recog_mu : List ℝ
  recog_log_var : List ℝ
  prior_mu : List ℝ
  prior_log_var : List ℝ
  bow_logits : List (List ℝ)

/-- cvae_loss (learners.py lines 55-78).  Returns the loss value (None when a
tensor operation fails) together with the updated module-level STEP counter.
dec_input is predictions[:target.size(0)].view(-1, vocab); bow_targets is
bow_logits.unsqueeze_(0).repeat(slt, 1, 1); the bow term is the unreduced
cross-entropy against the flattened target, then .mean() over all slt * bs
elements (the intermediate .view(-1, bs) does not change the mean); the
decoder term is the mean-reduced cross-entropy; the print branch only reads
the losses and advances STEP. -/
noncomputable def cvae_loss (input : CVAEOutput) (target : List (List ℕ)) (pad_idx : ℕ)
    (step : ℕ) (max_kld_step : Option ℕ) (STEP : ℕ) : Option ℝ × ℕ :=
  let vocab := (size3 input.predictions).2.2
  let slt := target.length
  let dec_input := view2 (input.predictions.take slt) vocab
  let bow_targets := List.replicate slt input.bow_logits
  let tgt := target.flatten
  let bow_loss := (view2 bow_targets vocab).bind (fun rows => ceRowsNoReduce rows tgt pad_idx)
  let kld_loss := gaussian_kld input.recog_mu input.recog_log_var input.prior_mu
    input.prior_log_var
  let decoder_l := dec_input.bind (fun rows => ceRows rows tgt pad_idx)
  let kld_weight := kldWeightOf step max_kld_step
  let value :=
    match decoder_l, bow_loss with
    | some d, some bl => some (d + meanList bl + kld_loss * kld_weight)
    | _, _ => none
  (value, stepCounterNext step STEP)

/-- torch.transpose(1, 0) on a rectangular rank-2 index tensor of shape
[sl, bs]: output[b][s] = input[s][b]. -/
def transpose10 (t : List (List ℕ)) : List (List ℕ) :=
  (List.range (size2 t).2).map (fun b => t.map (fun row => row.getD b 0))

/-- tensor.scatter(dim, idxs, v) restricted to one row: write v at every
position listed in idxs (in order; in-range indices are assumed, as PyTorch
raises on out-of-range scatter indices). -/
def scatterSetRow (row : List ℝ) (idxs : List ℕ) (v : ℝ) : List ℝ :=
  idxs.foldl (fun r i => r.set i v) row

/-- Line 89 of cvae_loss_sigmoid (learners.py): the multi-hot bag-of-words
target torch.zeros_like(bow_logits).scatter(1, target.transpose(1, 0), 1) —
row b of the zeros matrix gets value 1 written at every token id of batch
column b of the target. -/
def bowTargetsSigmoid (bow_logits : List (List ℝ)) (target : List (List ℕ)) :
    List (List ℝ) :=
  (bow_logits.zip (transpose10 target)).map
    (fun p => scatterSetRow (List.replicate p.1.length (0 : ℝ)) p.2 1)

/-- Lines 91-92 of cvae_loss_sigmoid (learners.py): the per-class weight
vector torch.ones(vocab) with weights[pad_idx] set to 0. -/
def bowWeightsSigmoid (vocab pad_idx : ℕ) : List ℝ :=
  (List.replicate vocab (1 : ℝ)).set pad_idx 0

/-! ## Specification-side definitions (stated from the wording of the spec,
for comparison against the source translations above) -/

/-- Stated from the spec (4.1): standard cross-entropy over the flattened
[S * B, V] logits versus the flattened [S * B] target indices, with the
padding class excluded from the average. -/
noncomputable def specCrossEntropy (O : List (List (List ℝ))) (T : List (List ℕ))
    (P : ℕ) : ℝ :=
  let pairs := (O.flatten.zip T.flatten).filter (fun p => decide (p.2 ≠ P))
  (pairs.map (fun p => nllOf p.1 p.2)).sum / (pairs.length : ℝ)

/-- Stated from the spec (4.1 / 4.2 / C8): the claimed shape-alignment policy —
right-pad the SEQUENCE dimension with all-zero timesteps up to the target
length S, then truncate to the first S timesteps. -/
def specSeqAlign (input : List (List (List ℝ))) (target : List (List ℕ)) :
    List (List (List ℝ)) :=
  let s := size3 input
  let sl := (size2 target).1
  (if sl > s.1 then
      input ++ List.replicate (sl - s.1) (List.replicate s.2.1 (List.replicate s.2.2 (0 : ℝ)))
    else input).take sl

/-- Stated from the spec (4.3): the closed-form Gaussian KL divergence, written
as an indexed sum over the n latent coordinates. -/
noncomputable def specGaussianKLD (recog_mu recog_logvar prior_mu prior_logvar : List ℝ)
    (n : ℕ) : ℝ :=
  -0.5 * ∑ i ∈ Finset.range n,
    (1 + recog_logvar.getD i 0 - prior_logvar.getD i 0 -
      (prior_mu.getD i 0 - recog_mu.getD i 0) ^ 2 / Real.exp (prior_logvar.getD i 0) -
      Real.exp (recog_logvar.getD i 0) / Real.exp (prior_logvar.getD i 0))

/-! ## Training step, from src/quicknlp/stepper.py -/

/-- One optimizer parameter: elementwise values and an optional gradient.
Configuration scalars are rationals (every Python float is one). -/
structure PTensor where
  data : List ℚ
  grad : Option (List ℚ)
deriving DecidableEq

/-- One entry of opt.param_groups: a dict holding a learning rate, a weight
decay coefficient and the group parameters. -/
structure ParamGroup where
  lr : ℚ
  wd : ℚ
  params : List PTensor
deriving DecidableEq

/-- The values compared by the membership test on line 45 of stepper.py:
the string literal on the left, and the elements of opt.param_groups (the
group dicts) on the right. -/
inductive PyVal where
  | pstr : String → PyVal
  | pgroup : ParamGroup → PyVal
deriving DecidableEq

/-- Line 45 of stepper.py, first conjunct: the Python expression
(the string wd) in self.opt.param_groups asks whether that string equals some
element of the LIST opt.param_groups, whose elements are group dicts; a string
never equals a dict.  The second conjunct subscripts the list with a string
(itself a TypeError), but Python short-circuits the conjunction, so only the
first conjunct is ever evaluated and only it is modelled. -/
def wdGuard (pgs : List ParamGroup) : Prop :=
  PyVal.pstr "wd" ∈ pgs.map PyVal.pgroup

instance (pgs : List ParamGroup) : Decidable (wdGuard pgs) := by
  unfold wdGuard; infer_instance

/-- Lines 45-51 of stepper.py: when the guard holds, every parameter with a
gradient is updated in place by p.data.add(-wd * lr, p.data), i.e. elementwise
x + (-wd * lr) * x. -/
def weightDecayPhase (pgs : List ParamGroup) : List ParamGroup :=
  if wdGuard pgs then
    pgs.map (fun g =>
      { g with
        params := g.params.map (fun p =>
          if p.grad.isSome then
            { p with data := p.data.map (fun x => x + (-(g.wd * g.lr)) * x) }
          else p) })
  else pgs

/-- Lines 19-26 of stepper.py: the teacher-forcing probability written to
self.m.pr_force at the start of every step. -/
def pr_force (static_prob : Option ℚ) (cycle : Option ℕ) (epoch : ℕ) : ℚ :=
  match static_prob with
  | some p => p
  | none =>
    match cycle with
    | none => 1
    | some C => if 0 ≤ epoch ∧ epoch < C then ((C : ℚ) - (epoch : ℚ)) / (C : ℚ) else 0

/-- The one failure the step itself raises: line 34, assert self.fp16 when a
loss scale other than 1 is configured. -/
inductive StepErr where
  | assertFp16
deriving DecidableEq

/-- The S2SStepper configuration fields read by step.  reg_fn receives
(output, xtra, raw_loss) in the source; output and xtra are fixed for one
invocation, so it is modelled by its restriction to the raw-loss argument.
clip only rescales gradients (an external framework call) and is retained for
completeness. -/
structure StepperCfg where
  fp16 : Bool
  loss_scale : ℚ
  clip : ℚ
  reg_fn : Option (ℝ → ℝ)
  teacher_forcing_cycle : Option ℕ
  static_prob : Option ℚ

/-- The externally observable effects of one S2SStepper.step invocation:
the probability written to the model, the error raised (if any), the scalar
handed to loss.backward (None when the step raised first), the parameter
state after the weight-decay phase and before opt.step(), and the value
returned to the caller. -/
structure StepRes where
  pr_forceSet : ℚ
  error : Option StepErr
  backward_loss : Option ℝ
  params_after_wd : List ParamGroup
  returned : Option ℝ

/-- S2SStepper.step (stepper.py lines 16-56).  The forward pass, zero_grad,
backward, fp16 gradient copies, gradient rescaling, clipping and opt.step()
are calls into the external framework that do not touch the fields recorded
here; critLoss is the scalar the criterion returned for this batch.  Order of
the modelled operations follows the source: set pr_force, compute the raw
loss, assert fp16 when loss_scale is not 1 (raising before anything is
backpropagated), scale the loss, let reg_fn replace the loss, run the
weight-decay phase, and return torch_item of the raw loss. -/
noncomputable def S2SStepper_step (cfg : StepperCfg) (epoch : ℕ) (critLoss : ℝ)
    (pgs : List ParamGroup) : StepRes :=
  let prF := pr_force cfg.static_prob cfg.teacher_forcing_cycle epoch
  let raw := critLoss
  if cfg.loss_scale ≠ 1 ∧ cfg.fp16 = false then
    { pr_forceSet := prF, error := some StepErr.assertFp16, backward_loss := none,
      params_after_wd := pgs, returned := none }
  else
    let loss := if cfg.loss_scale ≠ 1 then raw * ((cfg.loss_scale : ℚ) : ℝ) else raw
    let loss2 :=
      match cfg.reg_fn with
      | some f => f raw
      | none => loss
    { pr_forceSet := prF, error := none, backward_loss := some loss2,
      params_after_wd := weightDecayPhase pgs, returned := some raw }

/-! ## Theorems -/

/-- C1: the teacher-forcing probability set on the model by every step
invocation resolves in order: a configured static override wins
unconditionally; else no decay cycle gives probability 1; else an epoch
inside the cycle C gives (C - epoch) / C; else (epoch at or past C) 0.
With cycle 4 the probability is 1 at epoch 0, 1/2 at epoch 2 and 0 at epochs
4 and 10; a static override of 3/10 always gives 3/10. -/
theorem tf_probability_resolution :
    (∀ cfg epoch critLoss pgs,
      (S2SStepper_step cfg epoch critLoss pgs).pr_forceSet =
        pr_force cfg.static_prob cfg.teacher_forcing_cycle epoch) ∧
    (∀ (p : ℚ) (c : Option ℕ) (e : ℕ), pr_force (some p) c e = p) ∧
    (∀ e : ℕ, pr_force none none e = 1) ∧
    (∀ C e : ℕ, e < C → pr_force none (some C) e = ((C : ℚ) - (e : ℚ)) / (C : ℚ)) ∧
    (∀ C e : ℕ, C ≤ e → pr_force none (some C) e = 0) ∧
    pr_force none (some 4) 0 = 1 ∧ pr_force none (some 4) 2 = 1 / 2 ∧
    pr_force none (some 4) 4 = 0 ∧ pr_force none (some 4) 10 = 0 ∧
    (∀ (c : Option ℕ) (e : ℕ), pr_force (some (3 / 10)) c e = 3 / 10) := by
  refine ⟨?_, ?_, ?_, ?_, ?_, by norm_num [pr_force], by norm_num [pr_force],
    by norm_num [pr_force], by norm_num [pr_force], ?_⟩
  · intro cfg epoch critLoss pgs
    unfold S2SStepper_step
    by_cases h : cfg.loss_scale ≠ 1 ∧ cfg.fp16 = false <;> simp [h]
  · intro p c e; rfl
  · intro e; rfl
  · intro C e h; simp [pr_force, h]
  · intro C e h
    have hcond : ¬(0 ≤ e ∧ e < C) := by omega
    simp only [pr_force]
    rw [if_neg hcond]
  · intro c e; rfl

/-- Witness for C1 at concrete inputs: epoch 2 inside cycle 4, epoch 10
past it. -/
theorem tf_probability_resolution_witness :
    (2 < 4 ∧ pr_force none (some 4) 2 = ((4 : ℚ) - (2 : ℚ)) / (4 : ℚ)) ∧
    (4 ≤ 10 ∧ pr_force none (some 4) 10 = 0) :=
  ⟨⟨by decide, tf_probability_resolution.2.2.2.1 4 2 (by decide)⟩,
   ⟨by decide, tf_probability_resolution.2.2.2.2.1 4 10 (by decide)⟩⟩

/-- C3: the weight-decay claim fails on the code.  The guard on line 45 of
stepper.py tests membership of a string in the LIST of parameter-group dicts,
which never holds, so the weight-decay phase changes nothing: after it every
parameter still has its previous value, and in particular the group with
lr = 1/10, wd = 1/100 and a parameter 1 with gradient present keeps value 1
rather than the claimed 1 - wd * lr * 1 = 999/1000. -/
theorem weight_decay_branch_dead :
    (∀ pgs : List ParamGroup, weightDecayPhase pgs = pgs) ∧
    (∀ cfg epoch critLoss pgs,
      (S2SStepper_step cfg epoch critLoss pgs).params_after_wd = pgs) ∧
    weightDecayPhase [⟨1 / 10, 1 / 100, [⟨[1], some [1]⟩]⟩] =
      [⟨1 / 10, 1 / 100, [⟨[1], some [1]⟩]⟩] ∧
    (1 : ℚ) - (1 / 100) * (1 / 10) * 1 = 999 / 1000 ∧ (999 : ℚ) / 1000 < 1 := by
  have hdead : ∀ pgs : List ParamGroup, weightDecayPhase pgs = pgs := by
    intro pgs
    have hng : ¬ wdGuard pgs := by
      unfold wdGuard
      simp
    simp [weightDecayPhase, hng]
  refine ⟨hdead, ?_, hdead _, by norm_num, by norm_num⟩
  intro cfg epoch critLoss pgs
  unfold S2SStepper_step
  by_cases h : cfg.loss_scale ≠ 1 ∧ cfg.fp16 = false <;> simp [h, hdead]

/-- C7: every step that does not raise returns exactly the raw criterion
loss, while the scalar handed to backpropagation is the scaled loss when a
loss scale other than 1 is configured, and the output of the regularization
function (applied to the raw loss) when one is configured. -/
theorem step_returns_raw_loss (cfg : StepperCfg) (epoch : ℕ) (critLoss : ℝ)
    (pgs : List ParamGroup)
    (hok : (S2SStepper_step cfg epoch critLoss pgs).error = none) :
    (S2SStepper_step cfg epoch critLoss pgs).returned = some critLoss ∧
    (S2SStepper_step cfg epoch critLoss pgs).backward_loss =
      some (match cfg.reg_fn with
        | some f => f critLoss
        | none =>
          if cfg.loss_scale ≠ 1 then critLoss * ((cfg.loss_scale : ℚ) : ℝ) else critLoss) := by
  by_cases h : cfg.loss_scale ≠ 1 ∧ cfg.fp16 = false
  · exfalso
    unfold S2SStepper_step at hok
    simp [h] at hok
  · unfold S2SStepper_step
    simp [h]

/-- Witness for C7: the default configuration (loss scale 1, no
regularization) returns the raw loss 7 and backpropagates it unchanged. -/
theorem step_returns_raw_loss_witness :
    (S2SStepper_step ⟨false, 1, 0, none, none, none⟩ 0 7 []).error = none ∧
    (S2SStepper_step ⟨false, 1, 0, none, none, none⟩ 0 7 []).returned = some 7 ∧
    (S2SStepper_step ⟨false, 1, 0, none, none, none⟩ 0 7 []).backward_loss = some 7 := by
  have h := step_returns_raw_loss ⟨false, 1, 0, none, none, none⟩ 0 7 []
    (by unfold S2SStepper_step; simp)
  exact ⟨by unfold S2SStepper_step; simp, h.1, by simpa using h.2⟩

/-- C10: a step raises the fp16 assertion exactly when a loss scale other
than 1 is configured while fp16 mode is off; when it raises, nothing has been
backpropagated, the parameters are untouched and no value is returned. -/
theorem loss_scale_assert_fp16 (cfg : StepperCfg) (epoch : ℕ) (critLoss : ℝ)
    (pgs : List ParamGroup) :
    ((S2SStepper_step cfg epoch critLoss pgs).error = some StepErr.assertFp16 ↔
      (cfg.loss_scale ≠ 1 ∧ cfg.fp16 = false)) ∧
    (cfg.loss_scale ≠ 1 → cfg.fp16 = false →
      (S2SStepper_step cfg epoch critLoss pgs).backward_loss = none ∧
      (S2SStepper_step cfg epoch critLoss pgs).params_after_wd = pgs ∧
      (S2SStepper_step cfg epoch critLoss pgs).returned = none) := by
  by_cases h : cfg.loss_scale ≠ 1 ∧ cfg.fp16 = false
  · constructor
    · unfold S2SStepper_step; simp [h]
    · intro _ _
      unfold S2SStepper_step; simp [h]
  · constructor
    · unfold S2SStepper_step; simp [h]
    · intro h1 h2
      exact absurd ⟨h1, h2⟩ h
/-- Witness for C10: loss scale 2 with fp16 off raises the assertion. -/
theorem loss_scale_assert_fp16_witness :
    ((2 : ℚ) ≠ 1) ∧
    (S2SStepper_step ⟨false, 2, 0, none, none, none⟩ 0 7 []).backward_loss = none ∧
    (S2SStepper_step ⟨false, 2, 0, none, none, none⟩ 0 7 []).params_after_wd = [] ∧
    (S2SStepper_step ⟨false, 2, 0, none, none, none⟩ 0 7 []).returned = none :=
  ⟨by decide,
   (loss_scale_assert_fp16 ⟨false, 2, 0, none, none, none⟩ 0 7 []).2 (by decide) rfl⟩

/-! ### Helper lemmas on shapes and flattening -/

theorem t3Shape_spec {t : List (List (List ℝ))} {s b v : ℕ} (h : t3Shape t s b v = true) :
    t.length = s ∧ ∀ m ∈ t, m.length = b ∧ ∀ r ∈ m, r.length = v := by
  simp only [t3Shape, matShape, Bool.and_eq_true, beq_iff_eq, List.all_eq_true] at h
  exact ⟨h.1, fun m hm => ⟨(h.2 m hm).1, fun r hr => (h.2 m hm).2 r hr⟩⟩

theorem t3Shape_of_spec {t : List (List (List ℝ))} {s b v : ℕ}
    (h1 : t.length = s) (h2 : ∀ m ∈ t, m.length = b ∧ ∀ r ∈ m, r.length = v) :
    t3Shape t s b v = true := by
  simp only [t3Shape, matShape, Bool.and_eq_true, beq_iff_eq, List.all_eq_true]
  exact ⟨h1, fun m hm => ⟨(h2 m hm).1, fun r hr => (h2 m hm).2 r hr⟩⟩

theorem t2Shape_spec {t : List (List ℕ)} {s b : ℕ} (h : t2Shape t s b = true) :
    t.length = s ∧ ∀ r ∈ t, r.length = b := by
  simp only [t2Shape, Bool.and_eq_true, beq_iff_eq, List.all_eq_true] at h
  exact h

theorem tgtsValid_spec {l : List ℕ} {P V : ℕ} (h : tgtsValid l P V = true) :
    ∀ x ∈ l, x = P ∨ x < V := by
  simp only [tgtsValid, List.all_eq_true, Bool.or_eq_true, beq_iff_eq,
    decide_eq_true_eq] at h
  exact h

theorem size3_of_shape {t : List (List (List ℝ))} {s b v : ℕ}
    (h : t3Shape t s b v = true) (hs : 0 < s) (hb : 0 < b) : size3 t = (s, b, v) := by
  obtain ⟨hlen, hmem⟩ := t3Shape_spec h
  cases t with
  | nil => simp at hlen; omega
  | cons m ts =>
    obtain ⟨hmb, hrows⟩ := hmem m (by simp)
    cases m with
    | nil => simp at hmb; omega
    | cons r rs =>
      have hrv := hrows r (by simp)
      simp only [size3, List.headD_cons]
      rw [hlen, hmb, hrv]

theorem size2_of_shape {t : List (List ℕ)} {s b : ℕ}
    (h : t2Shape t s b = true) (hs : 0 < s) : size2 t = (s, b) := by
  obtain ⟨hlen, hmem⟩ := t2Shape_spec h
  cases t with
  | nil => simp at hlen; omega
  | cons r ts =>
    have hrb := hmem r (by simp)
    simp only [size2, List.headD_cons]
    rw [hlen, hrb]

theorem t3Shape_take {t : List (List (List ℝ))} {s b v : ℕ} (S : ℕ)
    (h : t3Shape t s b v = true) (hle : S ≤ s) : t3Shape (t.take S) S b v = true := by
  obtain ⟨hlen, hmem⟩ := t3Shape_spec h
  refine t3Shape_of_spec ?_ ?_
  · rw [List.length_take, hlen]; omega
  · exact fun m hm => hmem m (List.mem_of_mem_take hm)

theorem flatten_length_of_rows {α : Type} {L : List (List α)} {n b : ℕ}
    (hlen : L.length = n) (hall : ∀ r ∈ L, r.length = b) : L.flatten.length = n * b := by
  rw [List.length_flatten]
  have : L.map List.length = List.replicate n b := by
    rw [List.eq_replicate_iff]
    constructor
    · rw [List.length_map, hlen]
    · intro x hx
      rw [List.mem_map] at hx
      obtain ⟨r, hr, hxr⟩ := hx
      rw [← hxr]; exact hall r hr
  rw [this, List.sum_replicate, smul_eq_mul]

theorem flatten_rows_of_shape {t : List (List (List ℝ))} {s b v : ℕ}
    (h : t3Shape t s b v = true) : ∀ r ∈ t.flatten, r.length = v := by
  intro r hr
  rw [List.mem_flatten] at hr
  obtain ⟨m, hm, hrm⟩ := hr
  exact ((t3Shape_spec h).2 m hm).2 r hrm

theorem flatten_length_of_shape {t : List (List (List ℝ))} {s b v : ℕ}
    (h : t3Shape t s b v = true) : t.flatten.length = s * b := by
  obtain ⟨hlen, hmem⟩ := t3Shape_spec h
  exact flatten_length_of_rows hlen (fun m hm => (hmem m hm).1)

theorem chunkExact_flatten (v : ℕ) (hv : 0 < v) :
    ∀ L : List (List ℝ), (∀ r ∈ L, r.length = v) → chunkExact v L.flatten = L := by
  intro L
  induction L with
  | nil =>
    intro _
    rw [List.flatten_nil]
    unfold chunkExact
    simp
  | cons r L ih =>
    intro h
    have hr : r.length = v := h r (by simp)
    have hL : ∀ x ∈ L, x.length = v := fun x hx => h x (by simp [hx])
    rw [List.flatten_cons]
    unfold chunkExact
    have hne : ¬(v = 0 ∨ (r ++ L.flatten).length = 0) := by
      push_neg
      refine ⟨by omega, ?_⟩
      rw [List.length_append, hr]
      omega
    rw [dif_neg hne, ← hr, List.take_left, List.drop_left, hr, ih hL]

theorem view2_of_shape {t : List (List (List ℝ))} {s b v : ℕ}
    (h : t3Shape t s b v = true) (hv : 0 < v) : view2 t v = some t.flatten := by
  have hrows := flatten_rows_of_shape h
  have hlenrows := flatten_length_of_shape h
  have hflen : (flatScalars t).length = s * b * v := by
    unfold flatScalars
    exact flatten_length_of_rows hlenrows hrows
  unfold view2
  rw [if_pos ⟨hv.ne', by rw [hflen]; exact Nat.mul_mod_left _ _⟩]
  unfold flatScalars
  rw [chunkExact_flatten v hv t.flatten hrows]

/-- Evaluation of decoder_loss on a well-shaped input with S_in at least S:
it reduces to the spec-stated standard cross-entropy of the first S
timesteps. -/
theorem decoder_loss_eval (O : List (List (List ℝ))) (T : List (List ℕ))
    (P S B V S_in : ℕ) (hO : t3Shape O S_in B V = true) (hT : t2Shape T S B = true)
    (hle : S ≤ S_in) (hS : 0 < S) (hB : 0 < B) (hV : 0 < V)
    (hval : tgtsValid T.flatten P V = true) :
    decoder_loss O T P false = some (specCrossEntropy (O.take S) T P) := by
  have hsz3 := size3_of_shape hO (lt_of_lt_of_le hS hle) hB
  have hsz2 := size2_of_shape hT hS
  have htake := t3Shape_take S hO hle
  have hview := view2_of_shape htake hV
  have hrowlen : (O.take S).flatten.length = S * B := flatten_length_of_shape htake
  have htgtlen : T.flatten.length = S * B := by
    obtain ⟨hTl, hTm⟩ := t2Shape_spec hT
    exact flatten_length_of_rows hTl hTm
  have hcond : (O.take S).flatten.length = T.flatten.length ∧
      ∀ p ∈ (O.take S).flatten.zip T.flatten, p.2 = P ∨ p.2 < p.1.length := by
    constructor
    · rw [hrowlen, htgtlen]
    · intro p hp
      have hmem := List.of_mem_zip hp
      have h1 : p.1.length = V := flatten_rows_of_shape htake p.1 hmem.1
      rw [h1]
      exact tgtsValid_spec hval p.2 hmem.2
  unfold decoder_loss decoderPadStep
  rw [hsz3, hsz2]
  simp only
  rw [if_neg (by omega : ¬ S > S_in)]
  simp only [Bool.false_eq_true, if_false]
  rw [hview]
  simp only [Option.some_bind]
  unfold ceRows
  rw [if_pos hcond]
  unfold specCrossEntropy
  rfl

/-- C5: for well-shaped O of shape [S_in, B, V] with S_in at least S, target T
of shape [S, B] and padding index P (predict-first-token off), decoder_loss
succeeds and equals the standard cross-entropy over the flattened S * B logit
rows of the first S timesteps versus the flattened targets with class P
excluded, and it is invariant to the values of O at positions at or past S. -/
theorem decoder_loss_standard_ce (O : List (List (List ℝ))) (T : List (List ℕ))
    (P S B V S_in : ℕ) (hO : t3Shape O S_in B V = true) (hT : t2Shape T S B = true)
    (hle : S ≤ S_in) (hS : 0 < S) (hB : 0 < B) (hV : 0 < V)
    (hval : tgtsValid T.flatten P V = true) :
    decoder_loss O T P false = some (specCrossEntropy (O.take S) T P) ∧
    ∀ (O' : List (List (List ℝ))) (S_in' : ℕ), t3Shape O' S_in' B V = true →
      S ≤ S_in' → O'.take S = O.take S →
      decoder_loss O' T P false = decoder_loss O T P false := by
  have h1 := decoder_loss_eval O T P S B V S_in hO hT hle hS hB hV hval
  refine ⟨h1, ?_⟩
  intro O' S_in' hO' hle' heq
  rw [decoder_loss_eval O' T P S B V S_in' hO' hT hle' hS hB hV hval, h1, heq]

/-- Witness for C5: O of shape [2, 1, 2], T of shape [1, 1], padding index 0;
all hypotheses hold and the theorem applies. -/
theorem decoder_loss_standard_ce_witness :
    t3Shape [[[0, 0]], [[0, 5]]] 2 1 2 = true ∧
    t2Shape [[1]] 1 1 = true ∧
    tgtsValid ([[1]] : List (List ℕ)).flatten 0 2 = true ∧
    (decoder_loss [[[0, 0]], [[0, 5]]] [[1]] 0 false =
        some (specCrossEntropy (([[[0, 0]], [[0, 5]]] : List (List (List ℝ))).take 1) [[1]] 0) ∧
      ∀ (O' : List (List (List ℝ))) (S_in' : ℕ), t3Shape O' S_in' 1 2 = true →
        1 ≤ S_in' → O'.take 1 = ([[[0, 0]], [[0, 5]]] : List (List (List ℝ))).take 1 →
        decoder_loss O' [[1]] 0 false = decoder_loss [[[0, 0]], [[0, 5]]] [[1]] 0 false) :=
  ⟨by decide, by decide, by decide,
    decoder_loss_standard_ce [[[0, 0]], [[0, 5]]] [[1]] 0 1 1 2 2
      (by decide) (by decide) (by decide) (by decide) (by decide) (by decide) (by decide)⟩

/-- C2: the claim fails on the code.  decoder_loss pads the LAST (vocabulary)
dimension: F.pad(input, (0, sl - sl_in, 0, 0, 0, 0)) applies (0, sl - sl_in)
to the trailing dimension of the [S_in, B, V] tensor, so a short input becomes
shape [S_in, B, V + S - S_in] instead of [S, B, V] — against the comment in
the source itself, which says the input is filled up with zeros to the target
length.  Concretely, for O all-zero of shape [1, 1, 3], T = [[1], [2]] of
shape [2, 1], padding index 0: the pad step yields the shape [1, 1, 4] tensor
and the subsequent view(-1, 3) — and hence the whole loss — fails. -/
theorem decoder_loss_short_input_fails :
    decoderPadStep [[[0, 0, 0]]] [[1], [2]] = [[[0, 0, 0, 0]]] ∧
    decoder_loss [[[0, 0, 0]]] [[1], [2]] 0 false = none := by
  constructor
  · rfl
  · rfl

/-- C8: the claimed shape-alignment policy fails on decoder_loss_smoothed at
concrete inputs in both directions.  For O of shape [1, 1, 3] and T of shape
[2, 1] (input shorter), the code pads the last (vocabulary) dimension, giving
shape [1, 1, 4], not a sequence padded to length 2; for O of shape [2, 1, 1]
and T of shape [1, 1] (input longer), the code keeps both timesteps while the
claimed policy truncates to one. -/
theorem smoothed_alignment_not_spec_policy :
    smoothedAligned [[[0, 0, 0]]] [[1], [2]] ≠ specSeqAlign [[[0, 0, 0]]] [[1], [2]] ∧
    smoothedAligned [[[0]], [[0]]] [[1]] ≠ specSeqAlign [[[0]], [[0]]] [[1]] := by
  constructor
  · intro h
    have hlen := congrArg List.length h
    simp [smoothedAligned, specSeqAlign, size3, size2, padLastDim] at hlen
  · intro h
    have hlen := congrArg List.length h
    simp [smoothedAligned, specSeqAlign, size3, size2, padLastDim] at hlen

/-- C8 amended: decoder_loss_smoothed applies exactly the same padding step as
decoder_loss — the conditional F.pad over the LAST (vocabulary) dimension when
the input is shorter than the target — and never truncates: the aligned tensor
keeps all S_in timesteps, and when the target is not longer than the input the
tensor is passed through completely unchanged. -/
theorem smoothed_alignment_pad_only :
    (∀ input target, smoothedAligned input target = decoderPadStep input target) ∧
    (∀ input target, (smoothedAligned input target).length = input.length) ∧
    (∀ input target, (size2 target).1 ≤ (size3 input).1 →
      smoothedAligned input target = input) := by
  refine ⟨fun input target => rfl, ?_, ?_⟩
  · intro input target
    unfold smoothedAligned
    by_cases hc : (size2 target).1 > (size3 input).1
    · rw [if_pos hc]
      simp [padLastDim]
    · rw [if_neg hc]
  · intro input target hle
    unfold smoothedAligned
    rw [if_neg (by omega)]

/-- Witness for C8 amended at a concrete input with the target shorter than
the input: the tensor is completely unchanged. -/
theorem smoothed_alignment_pad_only_witness :
    (size2 [[1]]).1 ≤ (size3 [[[0]], [[0]]]).1 ∧
    smoothedAligned [[[0]], [[0]]] [[1]] = [[[0]], [[0]]] :=
  ⟨by decide, smoothed_alignment_pad_only.2.2 [[[0]], [[0]]] [[1]] (by decide)⟩

/-- Pairs drawn from the zip of a list with itself have equal components. -/
theorem mem_zip_self {α : Type} : ∀ {l : List α} {q : α × α}, q ∈ l.zip l → q.1 = q.2 := by
  intro l
  induction l with
  | nil => intro q h; simp at h
  | cons a t ih =>
    intro q h
    rw [List.zip_cons_cons] at h
    rcases List.mem_cons.mp h with h1 | h2
    · rw [h1]
    · exact ih h2

/-- A zipped four-list elementwise sum equals the corresponding indexed sum. -/
theorem zip4_map_sum (f : ℝ → ℝ → ℝ → ℝ → ℝ) :
    ∀ (A : List ℝ) (B C D : List ℝ) (n : ℕ),
      A.length = n → B.length = n → C.length = n → D.length = n →
      (((A.zip B).zip (C.zip D)).map (fun q => f q.1.1 q.1.2 q.2.1 q.2.2)).sum =
        ∑ i ∈ Finset.range n, f (A.getD i 0) (B.getD i 0) (C.getD i 0) (D.getD i 0) := by
  intro A
  induction A with
  | nil =>
    intro B C D n hA _ _ _
    subst hA
    simp
  | cons a A ih =>
    intro B C D n hA hB hC hD
    cases B with
    | nil => simp at hA hB; omega
    | cons b B =>
      cases C with
      | nil => simp at hA hC; omega
      | cons c C =>
        cases D with
        | nil => simp at hA hD; omega
        | cons d D =>
          cases n with
          | zero => simp at hA
          | succ m =>
            simp only [List.zip_cons_cons, List.map_cons, List.sum_cons]
            rw [Finset.sum_range_succ']
            simp only [List.getD_cons_succ, List.getD_cons_zero]
            rw [ih B C D m (by simpa using hA) (by simpa using hB) (by simpa using hC)
              (by simpa using hD)]
            ring

/-- C6: gaussian_kld returns exactly
-0.5 * sum over all n coordinates of
[1 + recog_logvar - prior_logvar - (prior_mu - recog_mu)^2 / exp prior_logvar
 - exp recog_logvar / exp prior_logvar]
(summed, not averaged), and returns 0 whenever the recognition and prior mu
and logvar are pairwise equal, for any length (any shape and batch size). -/
theorem gaussian_kld_formula_and_zero :
    (∀ (rmu rlv pmu plv : List ℝ) (n : ℕ),
      rmu.length = n → rlv.length = n → pmu.length = n → plv.length = n →
      gaussian_kld rmu rlv pmu plv = specGaussianKLD rmu rlv pmu plv n) ∧
    (∀ mu lv : List ℝ, gaussian_kld mu lv mu lv = 0) := by
  constructor
  · intro rmu rlv pmu plv n h1 h2 h3 h4
    unfold gaussian_kld specGaussianKLD
    rw [zip4_map_sum
      (fun a b c d => 1 + b - d - (c - a) ^ 2 / Real.exp d - Real.exp b / Real.exp d)
      rmu rlv pmu plv n h1 h2 h3 h4]
  · intro mu lv
    unfold gaussian_kld
    have hz : ∀ x ∈ (((mu.zip lv).zip (mu.zip lv)).map
        (fun q => 1 + q.1.2 - q.2.2 - (q.2.1 - q.1.1) ^ 2 / Real.exp q.2.2 -
          Real.exp q.1.2 / Real.exp q.2.2)), x = 0 := by
      intro x hx
      rw [List.mem_map] at hx
      obtain ⟨q, hq, hfx⟩ := hx
      have hq12 : q.1 = q.2 := mem_zip_self hq
      obtain ⟨⟨a, b⟩, ⟨c, d⟩⟩ := q
      simp only [Prod.mk.injEq] at hq12
      obtain ⟨ha, hb⟩ := hq12
      subst ha hb
      rw [← hfx]
      simp only
      rw [sub_self, div_self (Real.exp_ne_zero b)]
      ring
    rw [List.sum_eq_zero hz, mul_zero]

/-- Witness for C6 at concrete length-2 tensors. -/
theorem gaussian_kld_formula_and_zero_witness :
    ([(0 : ℝ), 1].length = 2 ∧
      gaussian_kld [0, 1] [2, 3] [4, 5] [6, 7] = specGaussianKLD [0, 1] [2, 3] [4, 5] [6, 7] 2) ∧
    gaussian_kld [1, 2] [3, 4] [1, 2] [3, 4] = 0 :=
  ⟨⟨rfl, gaussian_kld_formula_and_zero.1 [0, 1] [2, 3] [4, 5] [6, 7] 2 rfl rfl rfl rfl⟩,
   gaussian_kld_formula_and_zero.2 [1, 2] [3, 4]⟩

theorem getD_set_self {l : List ℝ} {i : ℕ} {v : ℝ} (h : i < l.length) :
    (l.set i v).getD i 0 = v := by
  rw [List.getD_eq_getElem?_getD, List.getElem?_set]
  simp [h]

theorem getD_set_other {l : List ℝ} {i j : ℕ} {v : ℝ} (h : i ≠ j) :
    (l.set i v).getD j 0 = l.getD j 0 := by
  rw [List.getD_eq_getElem?_getD, List.getElem?_set, if_neg h, ← List.getD_eq_getElem?_getD]

theorem scatterSetRow_length (v : ℝ) :
    ∀ (idxs : List ℕ) (row : List ℝ), (scatterSetRow row idxs v).length = row.length := by
  intro idxs
  induction idxs with
  | nil => intro row; rfl
  | cons i is ih =>
    intro row
    show (scatterSetRow (row.set i v) is v).length = _
    rw [ih (row.set i v), List.length_set]

/-- Evaluating a scatter of a constant value: position j holds the scattered
value when some index hit it, and the original entry otherwise. -/
theorem scatterSetRow_getD (v : ℝ) :
    ∀ (idxs : List ℕ) (row : List ℝ) (j : ℕ), j < row.length →
      (scatterSetRow row idxs v).getD j 0 = if j ∈ idxs then v else row.getD j 0 := by
  intro idxs
  induction idxs with
  | nil => intro row j _; simp [scatterSetRow]
  | cons i is ih =>
    intro row j hj
    show (scatterSetRow (row.set i v) is v).getD j 0 = _
    rw [ih (row.set i v) j (by rwa [List.length_set])]
    by_cases hjis : j ∈ is
    · rw [if_pos hjis, if_pos (by simp [hjis])]
    · rw [if_neg hjis]
      by_cases hij : j = i
      · subst hij
        rw [getD_set_self hj, if_pos (by simp)]
      · rw [getD_set_other (fun he => hij he.symm), if_neg (by simp [hij, hjis])]

/-- C9: in the sigmoid bag-of-words variant, the multi-hot target row of batch
element b holds 1 at exactly the vocabulary positions of the token ids present
anywhere in batch column b of the target (scatter-set: repeats do not change
the value) and 0 elsewhere; the per-class weight vector is 0 at the padding
class and 1 at every other class; and concretely, for a target containing
token id 3 twice and token id 4 once over vocabulary 6, exactly positions 3
and 4 are set, each to 1. -/
theorem bow_sigmoid_multihot (bow : List (List ℝ)) (target : List (List ℕ))
    (sl bs vocab pad : ℕ) (hbow : matShape bow bs vocab = true)
    (hT : t2Shape target sl bs = true) (hsl : 0 < sl) (hpad : pad < vocab)
    (hids : ∀ x ∈ target.flatten, x < vocab) :
    (∀ b, b < bs → ∀ v, v < vocab →
      ((bowTargetsSigmoid bow target).getD b []).getD v 0 =
        if ∃ row ∈ target, row.getD b 0 = v then 1 else 0) ∧
    ((bowWeightsSigmoid vocab pad).getD pad 0 = 0 ∧
      ∀ v, v < vocab → v ≠ pad → (bowWeightsSigmoid vocab pad).getD v 0 = 1) ∧
    bowTargetsSigmoid [[0, 0, 0, 0, 0, 0]] [[3], [4], [3]] = [[0, 0, 0, 1, 1, 0]] := by
  have hbowspec : bow.length = bs ∧ ∀ r ∈ bow, r.length = vocab := by
    simpa only [matShape, Bool.and_eq_true, beq_iff_eq, List.all_eq_true] using hbow
  have hsz2 := size2_of_shape hT hsl
  refine ⟨?_, ⟨?_, ?_⟩, ?_⟩
  · intro b hb v hv
    have htr : transpose10 target = (List.range bs).map
        (fun b => target.map (fun row => row.getD b 0)) := by
      unfold transpose10
      rw [hsz2]
    have hblen : b < bow.length := by rw [hbowspec.1]; exact hb
    have htrlen : b < (transpose10 target).length := by
      rw [htr, List.length_map, List.length_range]; exact hb
    have hziplen : b < (bow.zip (transpose10 target)).length := by
      rw [List.length_zip]; omega
    have hmaplen : b < ((bow.zip (transpose10 target)).map
        (fun p => scatterSetRow (List.replicate p.1.length (0 : ℝ)) p.2 1)).length := by
      rwa [List.length_map]
    unfold bowTargetsSigmoid
    rw [List.getD_eq_getElem _ _ hmaplen, List.getElem_map, List.getElem_zip]
    have hrowv : bow[b].length = vocab := hbowspec.2 _ (List.getElem_mem hblen)
    have hidx : (transpose10 target)[b] = target.map (fun row => row.getD b 0) := by
      rw [List.getElem_of_eq htr htrlen, List.getElem_map, List.getElem_range]
    simp only [hrowv, hidx]
    rw [scatterSetRow_getD 1 _ _ v (by rw [List.length_replicate]; exact hv)]
    by_cases hmem : v ∈ target.map (fun row => row.getD b 0)
    · rw [if_pos hmem, if_pos (by simpa [List.mem_map, eq_comm] using hmem)]
    · rw [if_neg hmem, if_neg (by simpa [List.mem_map, eq_comm] using hmem)]
      simp
  · unfold bowWeightsSigmoid
    exact getD_set_self (by rwa [List.length_replicate])
  · intro v hv hvp
    unfold bowWeightsSigmoid
    rw [getD_set_other (fun he => hvp he.symm), List.getD_eq_getElem _ _
      (by rwa [List.length_replicate]), List.getElem_replicate]
  · rfl

/-- Witness for C9 at the concrete example of the claim: target [[3], [4], [3]]
(token 3 twice, token 4 once), one batch element, vocabulary 6, padding 0. -/
theorem bow_sigmoid_multihot_witness :
    (matShape [[0, 0, 0, 0, 0, 0]] 1 6 = true ∧
      t2Shape [[3], [4], [3]] 3 1 = true ∧ (0 : ℕ) < 3 ∧ (0 : ℕ) < 6 ∧
      (∀ x ∈ ([[3], [4], [3]] : List (List ℕ)).flatten, x < 6)) ∧
    ((∀ b, b < 1 → ∀ v, v < 6 →
      ((bowTargetsSigmoid [[0, 0, 0, 0, 0, 0]] [[3], [4], [3]]).getD b []).getD v 0 =
        if ∃ row ∈ ([[3], [4], [3]] : List (List ℕ)), row.getD b 0 = v then 1 else 0) ∧
    ((bowWeightsSigmoid 6 0).getD 0 0 = 0 ∧
      ∀ v, v < 6 → v ≠ 0 → (bowWeightsSigmoid 6 0).getD v 0 = 1) ∧
    bowTargetsSigmoid [[0, 0, 0, 0, 0, 0]] [[3], [4], [3]] = [[0, 0, 0, 1, 1, 0]]) :=
  ⟨⟨by decide, by decide, by decide, by decide, by decide⟩,
    bow_sigmoid_multihot [[0, 0, 0, 0, 0, 0]] [[3], [4], [3]] 3 1 6 0
      (by decide) (by decide) (by decide) (by decide) (by decide)⟩

theorem matShape_spec {m : List (List ℝ)} {r c : ℕ} (h : matShape m r c = true) :
    m.length = r ∧ ∀ row ∈ m, row.length = c := by
  simpa only [matShape, Bool.and_eq_true, beq_iff_eq, List.all_eq_true] using h

theorem t3Shape_replicate {bow : List (List ℝ)} {bs vocab : ℕ}
    (h : matShape bow bs vocab = true) (n : ℕ) :
    t3Shape (List.replicate n bow) n bs vocab = true := by
  refine t3Shape_of_spec (List.length_replicate n bow) ?_
  intro m hm
  rw [List.eq_of_mem_replicate hm]
  exact ⟨(matShape_spec h).1, (matShape_spec h).2⟩

/-- C4: on a well-shaped CVAE output tuple (predictions of shape
[sl, bs, vocab] with sl at least the target length), the composite loss
succeeds and returns decoder_loss + bow_loss + kld_loss * kld_weight, where
the weight is 1 when max_kld_step is unset and min((step + 1) / max_kld_step, 1)
otherwise — concretely 1/10 at step 0, 1 at step 9 and 1 (clamped) at step 20
for max_kld_step 10 — and the returned value is the same for every value of
the process-wide STEP counter consulted by the logging branch. -/
theorem cvae_loss_decomposition (input : CVAEOutput) (target : List (List ℕ))
    (pad step : ℕ) (max_kld_step : Option ℕ) (STEP : ℕ) (sl bs vocab slt : ℕ)
    (hP : t3Shape input.predictions sl bs vocab = true)
    (hBw : matShape input.bow_logits bs vocab = true)
    (hT : t2Shape target slt bs = true)
    (hle : slt ≤ sl) (hslt : 0 < slt) (hbs : 0 < bs) (hv : 0 < vocab)
    (hval : tgtsValid target.flatten pad vocab = true) :
    (∀ STEP', (cvae_loss input target pad step max_kld_step STEP').1 =
      (cvae_loss input target pad step max_kld_step STEP).1) ∧
    (∃ d bl,
      ceRows (input.predictions.take slt).flatten target.flatten pad = some d ∧
      ceRowsNoReduce (List.replicate slt input.bow_logits).flatten target.flatten pad =
        some bl ∧
      (cvae_loss input target pad step max_kld_step STEP).1 =
        some (d + meanList bl +
          gaussian_kld input.recog_mu input.recog_log_var input.prior_mu
              input.prior_log_var * kldWeightOf step max_kld_step)) ∧
    kldWeightOf step none = 1 ∧ kldWeightOf 0 (some 10) = 1 / 10 ∧
    kldWeightOf 9 (some 10) = 1 ∧ kldWeightOf 20 (some 10) = 1 := by
  have hsz3 := size3_of_shape hP (lt_of_lt_of_le hslt hle) hbs
  have htlen : target.length = slt := (t2Shape_spec hT).1
  have htake := t3Shape_take slt hP hle
  have hviewd := view2_of_shape htake hv
  have hrep := t3Shape_replicate hBw slt
  have hviewb := view2_of_shape hrep hv
  have htgtlen : target.flatten.length = slt * bs := by
    obtain ⟨hTl, hTm⟩ := t2Shape_spec hT
    exact flatten_length_of_rows hTl hTm
  have hcondd : (input.predictions.take slt).flatten.length = target.flatten.length ∧
      ∀ p ∈ (input.predictions.take slt).flatten.zip target.flatten,
        p.2 = pad ∨ p.2 < p.1.length := by
    constructor
    · rw [flatten_length_of_shape htake, htgtlen]
    · intro p hp
      have hmem := List.of_mem_zip hp
      rw [flatten_rows_of_shape htake p.1 hmem.1]
      exact tgtsValid_spec hval p.2 hmem.2
  have hcondb : (List.replicate slt input.bow_logits).flatten.length =
      target.flatten.length ∧
      ∀ p ∈ (List.replicate slt input.bow_logits).flatten.zip target.flatten,
        p.2 = pad ∨ p.2 < p.1.length := by
    constructor
    · rw [flatten_length_of_shape hrep, htgtlen]
    · intro p hp
      have hmem := List.of_mem_zip hp
      rw [flatten_rows_of_shape hrep p.1 hmem.1]
      exact tgtsValid_spec hval p.2 hmem.2
  obtain ⟨d, hd⟩ : ∃ d,
      ceRows (input.predictions.take slt).flatten target.flatten pad = some d :=
    ⟨_, by unfold ceRows; rw [if_pos hcondd]⟩
  obtain ⟨bl, hbl⟩ : ∃ bl,
      ceRowsNoReduce (List.replicate slt input.bow_logits).flatten target.flatten pad =
        some bl :=
    ⟨_, by unfold ceRowsNoReduce; rw [if_pos hcondb]⟩
  refine ⟨fun STEP' => rfl, ⟨d, bl, hd, hbl, ?_⟩, rfl, ?_, ?_, ?_⟩
  · unfold cvae_loss
    rw [hsz3, htlen]
    simp only
    rw [hviewd, hviewb]
    simp only [Option.some_bind]
    rw [hd, hbl]
  · simp only [kldWeightOf]
    rw [show (((0 : ℕ) : ℝ) + 1) / ((10 : ℕ) : ℝ) = 1 / 10 by norm_num]
    exact min_eq_left (by norm_num)
  · simp only [kldWeightOf]
    rw [show (((9 : ℕ) : ℝ) + 1) / ((10 : ℕ) : ℝ) = 1 by norm_num]
    exact min_self 1
  · simp only [kldWeightOf]
    exact min_eq_right (by norm_num)

/-- Witness for C4 at a concrete CVAE output: predictions of shape [1, 1, 2],
scalar latents, bag-of-words logits of shape [1, 2], target [[1]], padding
index 0, step 0, annealing horizon 10, STEP counter 0. -/
theorem cvae_loss_decomposition_witness :
    (t3Shape [[[0, 0]]] 1 1 2 = true ∧ matShape [[0, 0]] 1 2 = true ∧
      t2Shape [[1]] 1 1 = true ∧ (1 : ℕ) ≤ 1 ∧ (0 : ℕ) < 1 ∧ (0 : ℕ) < 2 ∧
      tgtsValid ([[1]] : List (List ℕ)).flatten 0 2 = true) ∧
    ((∀ STEP', (cvae_loss ⟨[[[0, 0]]], [0], [0], [0], [0], [[0, 0]]⟩ [[1]] 0 0 (some 10)
        STEP').1 =
      (cvae_loss ⟨[[[0, 0]]], [0], [0], [0], [0], [[0, 0]]⟩ [[1]] 0 0 (some 10) 0).1) ∧
    (∃ d bl,
      ceRows (([[[0, 0]]] : List (List (List ℝ))).take 1).flatten
          ([[1]] : List (List ℕ)).flatten 0 = some d ∧
      ceRowsNoReduce (List.replicate 1 ([[0, 0]] : List (List ℝ))).flatten
          ([[1]] : List (List ℕ)).flatten 0 = some bl ∧
      (cvae_loss ⟨[[[0, 0]]], [0], [0], [0], [0], [[0, 0]]⟩ [[1]] 0 0 (some 10) 0).1 =
        some (d + meanList bl + gaussian_kld [0] [0] [0] [0] * kldWeightOf 0 (some 10))) ∧
    kldWeightOf 0 none = 1 ∧ kldWeightOf 0 (some 10) = 1 / 10 ∧
    kldWeightOf 9 (some 10) = 1 ∧ kldWeightOf 20 (some 10) = 1) :=
  ⟨⟨by decide, by decide, by decide, by decide, by decide, by decide, by decide⟩,
    cvae_loss_decomposition ⟨[[[0, 0]]], [0], [0], [0], [0], [[0, 0]]⟩ [[1]] 0 0 (some 10) 0
      1 1 2 1 (by decide) (by decide) (by decide) (by decide) (by decide) (by decide)
      (by decide) (by decide)⟩
